import Mathlib

/-!
Shallow embedding of `scrape_university_towns.py`: a scraper that vets a
list of candidate college towns.  Documents fetched over the network are
modelled as values of `SecDoc`; the fetch itself is a function
`String → Option SecDoc` where `none` models a network fault (in Python,
`requests.get` raising).  Since the script has no exception handling, a
fault surfaces as `Except.error` propagating out of the run.

Strings are Lean `String`s; Python's `x in y` substring test is embedded
as `strContains`, `str.lower()` as `strToLower`.
-/

namespace UTowns

/-- `leadsWith needle hay`: `needle` is a prefix of `hay` (char lists). -/
def leadsWith : List Char → List Char → Bool
  | [], _ => true
  | _ :: _, [] => false
  | a :: as, b :: bs => a == b && leadsWith as bs

/-- `containsSub hay needle`: `needle` occurs as a contiguous substring of
`hay`; embeds Python's `needle in hay`. -/
def containsSub : List Char → List Char → Bool
  | [], needle => needle.isEmpty
  | c :: t, needle => leadsWith needle (c :: t) || containsSub t needle

/-- Python's substring test `needle in hay` on strings. -/
def strContains (hay needle : String) : Bool :=
  containsSub hay.toList needle.toList

/-- Python's `str.lower()` (over the ASCII range the scraped pages use),
written as a map over the character list. -/
def strToLower (s : String) : String :=
  String.mk (s.toList.map Char.toLower)

/-- Number of (possibly overlapping) start positions at which `needle`
occurs in `hay`.  Used only to state claims about repeated mentions inside
a single node; the code itself never counts occurrences. -/
def occCount : List Char → List Char → Nat
  | [], _ => 0
  | c :: t, needle => (if leadsWith needle (c :: t) then 1 else 0) + occCount t needle

/-- A hyperlink (`<a>` tag): `href` attribute and link text. -/
structure Link where
  href : String
  text : String
  deriving DecidableEq

/-- A node of a town's own (secondary) article, in document order.
`h2` carries the text of its headline span, mirroring
`previous_heading.find('span').text` in the source. -/
inductive DocNode where
  | para (text : String)
  | table (text : String)
  | h2 (label : String)
  | other
  deriving DecidableEq

/-- Text content of a node (`get_text()`). -/
def nodeText : DocNode → String
  | .para s => s
  | .table s => s
  | .h2 lab => lab
  | .other => ""

/-- A town's own article as fetched by the Corroboration Checker:
the anchors of its `catlinks` div, and its body nodes in document order. -/
structure SecDoc where
  catlinks : List Link
  nodes : List DocNode
  deriving DecidableEq

/-- One `li` entry of a state's town list, with the structural facts the
extractor reads off the surrounding tree:
* `firstLink` — the first `<a>` in the item (the town's own article);
* `rest` — the remaining `<a>` tags (`find_all('a')[1:]`, associated
  universities and citation anchors);
* `restText` — the item's text after the first link's text, so that
  `get_text()` is `firstLink.text ++ restText`;
* `hasNestedList` — whether `item.find_all('ul')` is nonempty;
* `parentPrevPrevIsH3` — whether
  `item.parent.previous_sibling.previous_sibling.name == 'h3'`;
* `enclosingCity` — `item.parent.parent.find_next('a').text`, the display
  name of the enclosing city when the item is a nested neighborhood. -/
structure Item where
  firstLink : Link
  rest : List Link
  restText : String
  hasNestedList : Bool
  parentPrevPrevIsH3 : Bool
  enclosingCity : String
  deriving DecidableEq

/-- `item.get_text()`: the first link's text followed by the rest of the
item's text. -/
def itemText (item : Item) : String :=
  item.firstLink.text ++ item.restText

def base_url : String := "https://en.wikipedia.org"

def uni_towns_link : String := "/wiki/Category:University_towns_in_the_United_States"

/-- The fixed trusted-citation allow-list (`good_sources`). -/
def good_sources : List String :=
  ["7", "9", "13", "15", "16", "17", "22", "24", "28", "30", "34", "37",
   "38", "40", "41", "43", "50", "54"]

/-- The fixed big-city set (`big_cities`). -/
def big_cities : List String :=
  ["Los Angeles", "Sacramento", "Atlanta", "Chicago", "Detroit",
   "Cleveland", "Columbus", "Johnstown", "Lower Merion Township",
   "Philadelphia", "Pittsburgh", "State College", "Providence"]

/-- ASCII digit test, the `[0-9]` character class. -/
def isDigitCh (c : Char) : Bool := c.isDigit

/-- Worker for `findSources`, structurally recursive on a fuel counter.
Every step consumes at least one character, so fuel equal to the input
length never runs out before the scan finishes. -/
def findSourcesAux : Nat → List Char → List String
  | 0, _ => []
  | fuel + 1, cs =>
    match cs with
    | '[' :: a :: b :: ']' :: rest =>
      if isDigitCh a && isDigitCh b then
        String.mk [a, b] :: findSourcesAux fuel rest
      else if isDigitCh a && b == ']' then
        String.mk [a] :: findSourcesAux fuel (']' :: rest)
      else
        findSourcesAux fuel (a :: b :: ']' :: rest)
    | '[' :: a :: ']' :: rest =>
      if isDigitCh a then
        String.mk [a] :: findSourcesAux fuel rest
      else
        findSourcesAux fuel (a :: ']' :: rest)
    | _ :: rest => findSourcesAux fuel rest
    | [] => []

/-- Embeds `re.findall('\x5c[([0-9]\x7b1,2\x7d)\x5c]', line)`: scan left
to right; at each `[` try greedily to match two digits then `]`, else one
digit then `]`; on success capture the digits and resume after the match,
otherwise advance one character. -/
def findSources (cs : List Char) : List String :=
  findSourcesAux cs.length cs

/-- `tag.find_previous('h2')` from the node at index `i`: scan indices
`i-1, i-2, …, 0` and return the label of the first `h2` found. -/
def find_previous_h2 (nodes : List DocNode) : Nat → Option String
  | 0 => none
  | j + 1 =>
    match nodes.get? j with
    | some (.h2 lab) => some lab
    | _ => find_previous_h2 nodes j

/-- The heading test of `relevant_section`: no preceding `h2`, or the
nearest preceding `h2` headline contains "economy" once lowercased. -/
def relevant_heading_ok (nodes : List DocNode) (i : Nat) : Bool :=
  match find_previous_h2 nodes i with
  | none => true
  | some lab => strContains (strToLower lab) "economy"

/-- The Section Classifier `relevant_section`, applied to the node at
index `i` of the secondary document: true for a paragraph or table whose
nearest preceding `h2` is absent or has "economy" in its lowercased
label; anything else is not in scope (the Python function returns `None`,
which is falsy, for other node kinds). -/
def relevant_section (nodes : List DocNode) (i : Nat) : Bool :=
  match nodes.get? i with
  | some (.para _) => relevant_heading_ok nodes i
  | some (.table _) => relevant_heading_ok nodes i
  | _ => false

/-- `soup.find_all(relevant_section)`: the nodes, in document order, that
the Section Classifier marks in scope. -/
def relevant_paras (nodes : List DocNode) : List DocNode :=
  ((List.range nodes.length).filter (fun i => relevant_section nodes i)).map
    (fun i => nodes.getD i DocNode.other)

/-- The slow path's `ref_count` for one university: the number of in-scope
nodes whose lowercased text contains the (already lowercased) name. -/
def countMentions (nodes : List DocNode) (uni : String) : Nat :=
  (relevant_paras nodes).countP (fun n => strContains (strToLower (nodeText n)) uni)

/-- The slow path of `check_college_town_status`: some university reaches
`ref_count >= 2`. -/
def slow_scan (doc : SecDoc) (unis : List String) : Bool :=
  unis.any (fun uni => decide (2 ≤ countMentions doc.nodes uni))

/-- The fast path: the `catlinks` div contains an anchor whose `href` is
the "University towns in the United States" category link. -/
def fastPath (doc : SecDoc) : Bool :=
  !(doc.catlinks.filter (fun l => l.href == uni_towns_link)).isEmpty

/-- The university names extracted from a candidate line:
`find_all('a')[1:]`, dropping "citation needed" placeholders and texts
containing a bracket, lowercased. -/
def itemUniversities (item : Item) : List String :=
  (item.rest.filter
      (fun l => l.text != "citation needed" && !(l.text.toList.contains '['))).map
    (fun l => strToLower l.text)

/-- `check_college_town_status`.  The secondary fetch `requests.get` is
the parameter `fetch`; the source wraps it in no exception handler, so a
fault (`none`) surfaces as `Except.error`. -/
def check_college_town_status (fetch : String → Option SecDoc) (item : Item) :
    Except Unit Bool :=
  match fetch (base_url ++ item.firstLink.href) with
  | none => .error ()
  | some doc =>
    if fastPath doc then .ok true
    else .ok (slow_scan doc (itemUniversities item))

/-- `check_college_town_status` instrumented with a flag recording whether
the slow-path mention scan was executed. -/
def check_college_town_status_instr (fetch : String → Option SecDoc) (item : Item) :
    Except Unit (Bool × Bool) :=
  match fetch (base_url ++ item.firstLink.href) with
  | none => .error ()
  | some doc =>
    if fastPath doc then .ok (true, false)
    else .ok (slow_scan doc (itemUniversities item), true)

/-- The neighborhood rewrite of `get_towns_from_state`: when the item's
chain `parent.previous_sibling.previous_sibling` is not an `h3` and the
enclosing city is a big city, the first link's string is replaced by
`"<neighborhood>, <city>"` (an in-place mutation of the tree in Python). -/
def rewriteItem (item : Item) : Item :=
  if item.parentPrevPrevIsH3 then item
  else if big_cities.contains item.enclosingCity then
    { item with firstLink :=
        { item.firstLink with
            text := item.firstLink.text ++ ", " ++ item.enclosingCity } }
  else item

/-- One iteration of the `get_towns_from_state` loop on one `li` item.
Returns the produced record (if any), the item as it stands after the
iteration (capturing the in-place rewrite), and whether the Corroboration
Checker was invoked.  A fetch fault inside the checker propagates. -/
def processItem (fetch : String → Option SecDoc) (item : Item) :
    Except Unit (Option String × Item × Bool) :=
  if item.hasNestedList then .ok (none, item, false)
  else
    let item2 := rewriteItem item
    let line := itemText item2
    let sources := findSources line.toList
    if !sources.isEmpty && sources.any (fun s => good_sources.contains s) then
      .ok (some (line ++ "\n"), item2, false)
    else
      match check_college_town_status fetch item2 with
      | .error e => .error e
      | .ok st => .ok (if st then some (line ++ "\n") else none, item2, true)

/-- `get_towns_from_state` over the items of one state's list.  Returns
the accepted town lines in order, the items after the run (the tree as
left by the loop's mutations), and the items on which the Corroboration
Checker was invoked. -/
def get_towns_from_state (fetch : String → Option SecDoc) :
    List Item → Except Unit (List String × List Item × List Item)
  | [] => .ok ([], [], [])
  | item :: rest =>
    match processItem fetch item with
    | .error e => .error e
    | .ok (rcd, item2, chk) =>
      match get_towns_from_state fetch rest with
      | .error e => .error e
      | .ok (ts, its, cks) =>
        .ok ((match rcd with | some l => l :: ts | none => ts),
             item2 :: its,
             (if chk then item2 :: cks else cks))

/-- One `h3` state section of the freshly parsed main page: its heading
text, whether its preceding `h2` headline is still the anchor
"College towns in the United States", and its town list items. -/
structure StateSec where
  label : String
  underAnchor : Bool
  items : List Item
  deriving DecidableEq

/-- `scrape_university_towns`: walk the `h3` sections in order while they
sit under the anchor `h2`; for each, emit the state label line followed by
its accepted town lines.  The main page is re-fetched and re-parsed on
every call, so the input section list is the pristine parse. -/
def scrape_university_towns (fetch : String → Option SecDoc) :
    List StateSec → Except Unit (List String)
  | [] => .ok []
  | s :: rest =>
    if s.underAnchor then
      match get_towns_from_state fetch s.items with
      | .error e => .error e
      | .ok (ts, _, _) =>
        match scrape_university_towns fetch rest with
        | .error e => .error e
        | .ok out => .ok ((s.label ++ "\n") :: (ts ++ out))
    else .ok []

/-! Concrete documents and items used as test inputs for the theorems. -/

/-- A candidate with a trusted citation: `"Auburn (AU)[7]"`. -/
def itemAuburn : Item :=
  ⟨⟨"/wiki/Auburn", "Auburn"⟩, [⟨"/wiki/AU", "AU"⟩], " (AU)[7]", false, true, "X"⟩

/-- A candidate with no citation, whose secondary fetch will fault. -/
def itemSmalltown : Item :=
  ⟨⟨"/wiki/Smalltown", "Smalltown"⟩, [⟨"/wiki/Some_College", "Some College"⟩],
   " (Some College)", false, true, "X"⟩

/-- A neighborhood item nested under Los Angeles, with a trusted citation. -/
def itemWestwood : Item :=
  ⟨⟨"/wiki/Westwood", "Westwood"⟩, [⟨"/wiki/UCLA", "UCLA"⟩], " (UCLA)[7]",
   false, false, "Los Angeles"⟩

/-- `itemWestwood` as the extractor leaves it: first-link text rewritten. -/
def itemWestwoodAfter : Item :=
  { itemWestwood with firstLink := ⟨"/wiki/Westwood", "Westwood, Los Angeles"⟩ }

/-- An item that itself contains a nested list (a subdivided town). -/
def itemNested : Item :=
  ⟨⟨"/wiki/Bigtown", "Bigtown"⟩, [], "", true, true, "X"⟩

/-- A candidate whose slow path must run: no citation, two in-scope
mentions of its university on its own article. -/
def itemHarv : Item :=
  ⟨⟨"/wiki/T", "T"⟩, [⟨"/wiki/H", "Harv"⟩], " (Harv)", false, true, "X"⟩

/-- Secondary document with no category link and two in-scope mentions of
"harv": one in the lead, one under an "Economy" heading; the mention under
"History" is out of scope. -/
def docHarv : SecDoc :=
  ⟨[], [.para "harv here", .h2 "History", .para "harv hidden",
        .h2 "Economy", .para "harv again"]⟩

/-- Secondary document whose catlinks contain the university-towns
category link. -/
def docCat : SecDoc :=
  ⟨[⟨uni_towns_link, "University towns in the United States"⟩],
   [.para "harv harv"]⟩

/-- Secondary document whose single in-scope node mentions "harv" twice. -/
def docSingle : SecDoc :=
  ⟨[], [.para "harv harv"]⟩

/-- A one-state page whose only item carries a trusted citation. -/
def pageAlabama : List StateSec :=
  [⟨"Alabama", true, [itemAuburn]⟩]

/-! Helper lemmas. -/

theorem ut_countP_map {α β : Type} (f : α → β) (p : β → Bool) (l : List α) :
    (l.map f).countP p = l.countP (fun a => p (f a)) := by
  induction l with
  | nil => rfl
  | cons a t ih => simp [List.countP_cons, ih]

theorem ut_countP_filter {α : Type} (p q : α → Bool) (l : List α) :
    (l.filter q).countP p = l.countP (fun a => q a && p a) := by
  induction l with
  | nil => rfl
  | cons a t ih =>
    by_cases hq : q a
    · simp [List.filter_cons, List.countP_cons, hq, ih]
    · simp [List.filter_cons, List.countP_cons, hq, ih]

/-- The slow path's per-university count, written directly as the number
of indices of the secondary document that the Section Classifier marks
in scope and whose node text contains the university name. -/
theorem countMentions_eq_filter (nodes : List DocNode) (uni : String) :
    countMentions nodes uni =
      ((List.range nodes.length).filter
        (fun i => relevant_section nodes i &&
          strContains (strToLower (nodeText (nodes.getD i DocNode.other))) uni)).length := by
  unfold countMentions relevant_paras
  rw [ut_countP_map, ut_countP_filter, List.countP_eq_length_filter]

/-- The instrumented checker computes the same verdict as the plain one. -/
theorem check_instr_agrees (fetch : String → Option SecDoc) (item : Item) :
    (check_college_town_status_instr fetch item).map Prod.fst =
      check_college_town_status fetch item := by
  unfold check_college_town_status check_college_town_status_instr
  cases fetch (base_url ++ item.firstLink.href) with
  | none => rfl
  | some doc =>
    by_cases hc : fastPath doc
    · simp [hc, Except.map]
    · simp [hc, Except.map]

/-- Advancing the backwards `h2` search past a non-`h2` node. -/
theorem fp_step (nodes : List DocNode) (i : Nat)
    (h : ∀ lab, nodes.get? i ≠ some (.h2 lab)) :
    find_previous_h2 nodes (i + 1) = find_previous_h2 nodes i := by
  have heq : find_previous_h2 nodes (i + 1) =
      match nodes.get? i with
      | some (.h2 lab) => some lab
      | _ => find_previous_h2 nodes i := rfl
  rw [heq]
  cases hn : nodes.get? i with
  | none => rfl
  | some node =>
    cases node with
    | h2 lab => exact absurd hn (h lab)
    | para s => rfl
    | table s => rfl
    | other => rfl

/-- `find_previous_h2` finds nothing exactly when no `h2` precedes. -/
theorem fp_none_iff (nodes : List DocNode) :
    ∀ i, find_previous_h2 nodes i = none ↔
      ∀ j, j < i → ∀ lab, nodes.get? j ≠ some (.h2 lab) := by
  intro i
  induction i with
  | zero => simp [find_previous_h2]
  | succ k ih =>
    by_cases hk : ∃ lab, nodes.get? k = some (.h2 lab)
    · obtain ⟨lab, hlab⟩ := hk
      constructor
      · intro h
        unfold find_previous_h2 at h
        rw [hlab] at h
        exact absurd h (by simp)
      · intro h
        exact absurd hlab (h k (Nat.lt_succ_self k) lab)
    · push_neg at hk
      rw [fp_step nodes k hk, ih]
      constructor
      · intro h j hj lab
        rcases Nat.lt_succ_iff_lt_or_eq.mp hj with hj' | hj'
        · exact h j hj' lab
        · rw [hj']; exact hk lab
      · intro h j hj lab
        exact h j (Nat.lt_succ_of_lt hj) lab

/-- `find_previous_h2` returns exactly the label of the nearest preceding
`h2`: some earlier `h2` with that label, with no `h2` strictly between it
and the node. -/
theorem fp_some_iff (nodes : List DocNode) (lab : String) :
    ∀ i, find_previous_h2 nodes i = some lab ↔
      ∃ j, j < i ∧ nodes.get? j = some (.h2 lab) ∧
        ∀ k, j < k → k < i → ∀ lab2, nodes.get? k ≠ some (.h2 lab2) := by
  intro i
  induction i with
  | zero => simp [find_previous_h2]
  | succ n ih =>
    by_cases hn : ∃ lab2, nodes.get? n = some (.h2 lab2)
    · obtain ⟨lab2, hlab2⟩ := hn
      have hred : find_previous_h2 nodes (n + 1) = some lab2 := by
        have heq : find_previous_h2 nodes (n + 1) =
            match nodes.get? n with
            | some (.h2 lab) => some lab
            | _ => find_previous_h2 nodes n := rfl
        rw [heq, hlab2]
      rw [hred]
      constructor
      · intro h
        have hl : lab2 = lab := Option.some.inj h
        subst hl
        refine ⟨n, Nat.lt_succ_self n, hlab2, ?_⟩
        intro k hk1 hk2 lab3 hcontra
        omega
      · rintro ⟨j, hj, hget, hbetween⟩
        rcases Nat.lt_succ_iff_lt_or_eq.mp hj with hj' | hj'
        · exact absurd hlab2 (hbetween n hj' (Nat.lt_succ_self n) lab2)
        · rw [hj'] at hget
          rw [hget] at hlab2
          have hl : DocNode.h2 lab = DocNode.h2 lab2 := Option.some.inj hlab2
          have hl2 : lab = lab2 := by injection hl
          rw [hl2]
    · push_neg at hn
      rw [fp_step nodes n hn, ih]
      constructor
      · rintro ⟨j, hj, hget, hbetween⟩
        refine ⟨j, Nat.lt_succ_of_lt hj, hget, ?_⟩
        intro k hk1 hk2 lab2
        rcases Nat.lt_succ_iff_lt_or_eq.mp hk2 with hk' | hk'
        · exact hbetween k hk1 hk' lab2
        · rw [hk']; exact hn lab2
      · rintro ⟨j, hj, hget, hbetween⟩
        have hjn : j ≠ n := by
          intro hcontra
          rw [hcontra] at hget
          exact hn lab hget
        have hj' : j < n := by
          rcases Nat.lt_succ_iff_lt_or_eq.mp hj with h | h
          · exact h
          · exact absurd h hjn
        exact ⟨j, hj', hget, fun k hk1 hk2 => hbetween k hk1 (Nat.lt_succ_of_lt hk2)⟩

/-- The neighborhood rewrite leaves an item unchanged when its enclosing
list is directly under an `h3` or its city is not a big city. -/
theorem rewriteItem_id (item : Item)
    (h : item.parentPrevPrevIsH3 = true ∨
      big_cities.contains item.enclosingCity = false) :
    rewriteItem item = item := by
  unfold rewriteItem
  rcases h with h | h
  · rw [if_pos h]
  · by_cases h2 : item.parentPrevPrevIsH3 = true
    · rw [if_pos h2]
    · rw [if_neg h2, if_neg (by rw [h]; simp)]

/-- Shape of a successful `processItem` step: a nested item passes through
untouched with no record; otherwise the returned item is the rewritten
one and any record is its line plus a newline. -/
theorem processItem_ok_shape (fetch : String → Option SecDoc) (item : Item)
    (rcd : Option String) (i2 : Item) (b : Bool)
    (h : processItem fetch item = .ok (rcd, i2, b)) :
    (item.hasNestedList = true ∧ rcd = none ∧ i2 = item) ∨
    (item.hasNestedList = false ∧ i2 = rewriteItem item ∧
      (rcd = none ∨ rcd = some (itemText (rewriteItem item) ++ "\n"))) := by
  unfold processItem at h
  by_cases hn : item.hasNestedList = true
  · left
    rw [if_pos hn] at h
    have h' := Except.ok.inj h
    injection h' with ha h''
    injection h'' with hb hc
    exact ⟨hn, ha.symm, hb.symm⟩
  · right
    have hn' : item.hasNestedList = false := by
      revert hn; cases item.hasNestedList <;> simp
    rw [if_neg hn] at h
    refine ⟨hn', ?_⟩
    by_cases hs : (!(findSources (itemText (rewriteItem item)).toList).isEmpty &&
        (findSources (itemText (rewriteItem item)).toList).any
          (fun s => good_sources.contains s)) = true
    · rw [if_pos hs] at h
      have h' := Except.ok.inj h
      injection h' with ha h''
      injection h'' with hb hc
      exact ⟨hb.symm, Or.inr ha.symm⟩
    · rw [if_neg hs] at h
      cases hc : check_college_town_status fetch (rewriteItem item) with
      | error e => rw [hc] at h; exact absurd h (by simp)
      | ok st =>
        rw [hc] at h
        cases st with
        | true =>
          have h' : Except.ok (some (itemText (rewriteItem item) ++ "\n"),
              rewriteItem item, true) = Except.ok (rcd, i2, b) := h
          have h'' := Except.ok.inj h'
          injection h'' with ha hbc
          injection hbc with hb hc2
          exact ⟨hb.symm, Or.inr ha.symm⟩
        | false =>
          have h' : Except.ok ((none : Option String),
              rewriteItem item, true) = Except.ok (rcd, i2, b) := h
          have h'' := Except.ok.inj h'
          injection h'' with ha hbc
          injection hbc with hb hc2
          exact ⟨hb.symm, Or.inl ha.symm⟩

/-- A successful `processItem` step preserves an item that the rewrite
does not apply to. -/
theorem processItem_preserves (fetch : String → Option SecDoc) (item : Item)
    (rcd : Option String) (i2 : Item) (b : Bool)
    (hno : item.hasNestedList = true ∨ item.parentPrevPrevIsH3 = true ∨
      big_cities.contains item.enclosingCity = false)
    (h : processItem fetch item = .ok (rcd, i2, b)) :
    i2 = item := by
  rcases processItem_ok_shape fetch item rcd i2 b h with ⟨_, _, hi⟩ | ⟨hn, hi, _⟩
  · exact hi
  · rcases hno with hno | hno
    · rw [hno] at hn; exact absurd hn (by simp)
    · rw [hi]; exact rewriteItem_id item hno

/-! Claim theorems. -/

/-- C2: a list-item candidate (no nested sublist) whose text carries at
least one bracketed 1–2 digit citation marker with at least one marker in
the trusted allow-list is accepted — its line joins the output — and the
Corroboration Checker is never invoked for it (the invocation flag of the
step is `false`, and the result is independent of `fetch`). -/
theorem trusted_citation_accepts (fetch : String → Option SecDoc) (item : Item)
    (hns : item.hasNestedList = false)
    (hgood : (findSources (itemText (rewriteItem item)).toList).any
        (fun s => good_sources.contains s) = true) :
    processItem fetch item =
      .ok (some (itemText (rewriteItem item) ++ "\n"), rewriteItem item, false) := by
  have hne : (findSources (itemText (rewriteItem item)).toList).isEmpty = false := by
    cases hfs : findSources (itemText (rewriteItem item)).toList with
    | nil => rw [hfs] at hgood; exact absurd hgood (by simp)
    | cons a t => rfl
  unfold processItem
  rw [if_neg (show ¬item.hasNestedList = true by rw [hns]; simp),
    if_pos (show (!(findSources (itemText (rewriteItem item)).toList).isEmpty &&
      (findSources (itemText (rewriteItem item)).toList).any
        (fun s => good_sources.contains s)) = true by rw [hne, hgood]; rfl)]

theorem trusted_citation_accepts_witness :
    processItem (fun _ => none) itemAuburn =
      .ok (some (itemText (rewriteItem itemAuburn) ++ "\n"), rewriteItem itemAuburn, false) :=
  trusted_citation_accepts (fun _ => none) itemAuburn rfl (by decide)

/-- C3: when the secondary document's category-links region contains the
"University towns in the United States" link, the Corroboration Checker
returns true, and its instrumented form records that the slow-path
mention scan was not executed. -/
theorem category_link_fast_path (fetch : String → Option SecDoc) (item : Item)
    (doc : SecDoc)
    (hf : fetch (base_url ++ item.firstLink.href) = some doc)
    (hcat : fastPath doc = true) :
    check_college_town_status fetch item = .ok true ∧
    check_college_town_status_instr fetch item = .ok (true, false) := by
  constructor
  · simp only [check_college_town_status, hf]
    rw [if_pos hcat]
  · simp only [check_college_town_status_instr, hf]
    rw [if_pos hcat]

theorem category_link_fast_path_witness :
    check_college_town_status (fun _ => some docCat) itemHarv = .ok true ∧
    check_college_town_status_instr (fun _ => some docCat) itemHarv = .ok (true, false) :=
  category_link_fast_path (fun _ => some docCat) itemHarv docCat rfl (by decide)

/-- C4: the pipeline re-fetches and re-parses the document tree on every
call, so two runs of `scrape_university_towns` over the same unchanged
tree produce the same output stream, in order and content. -/
theorem pipeline_two_runs_equal (fetch : String → Option SecDoc)
    (page : List StateSec) (out1 out2 : List String)
    (h1 : scrape_university_towns fetch page = .ok out1)
    (h2 : scrape_university_towns fetch page = .ok out2) :
    out1 = out2 :=
  Except.ok.inj (h1.symm.trans h2)

theorem pipeline_two_runs_equal_witness :
    (["Alabama\n", "Auburn (AU)[7]\n"] : List String) =
      ["Alabama\n", "Auburn (AU)[7]\n"] :=
  pipeline_two_runs_equal (fun _ => none) pageAlabama
    ["Alabama\n", "Auburn (AU)[7]\n"] ["Alabama\n", "Auburn (AU)[7]\n"] rfl rfl

/-- C6: the code wraps the secondary fetch in no handler, so a fetch
fault does not reject the single candidate — it propagates out of the
checker and aborts the whole run, losing the remaining candidates (here a
following trusted-citation candidate that would have been accepted). -/
theorem fetch_failure_aborts_run :
    check_college_town_status (fun _ => none) itemSmalltown = .error () ∧
    get_towns_from_state (fun _ => none) [itemSmalltown, itemAuburn] = .error () :=
  ⟨rfl, rfl⟩

/-- C8: an item that itself contains a nested list is skipped: it yields
no record, is never handed to the checker, and passes through unchanged;
the run continues on the remaining standalone items. -/
theorem nested_item_skipped (fetch : String → Option SecDoc) (item : Item)
    (rest : List Item)
    (hn : item.hasNestedList = true) :
    get_towns_from_state fetch (item :: rest) =
      (get_towns_from_state fetch rest).map
        (fun r => (r.1, item :: r.2.1, r.2.2)) := by
  have hp : processItem fetch item = .ok (none, item, false) := by
    unfold processItem; rw [if_pos hn]
  have heq : get_towns_from_state fetch (item :: rest) =
      match processItem fetch item with
      | .error e => .error e
      | .ok (rcd, item2, chk) =>
        match get_towns_from_state fetch rest with
        | .error e => .error e
        | .ok (ts, its, cks) =>
          .ok ((match rcd with | some l => l :: ts | none => ts),
               item2 :: its,
               (if chk then item2 :: cks else cks)) := rfl
  rw [heq, hp]
  cases hr : get_towns_from_state fetch rest with
  | error e => rfl
  | ok trip => obtain ⟨ts, its, cks⟩ := trip; rfl

theorem nested_item_skipped_witness :
    get_towns_from_state (fun _ => none) (itemNested :: [itemAuburn]) =
      (get_towns_from_state (fun _ => none) [itemAuburn]).map
        (fun r => (r.1, itemNested :: r.2.1, r.2.2)) :=
  nested_item_skipped (fun _ => none) itemNested [itemAuburn] rfl

/-- C1: for a candidate that reaches the slow path (fetch succeeded and
the category-link fast path did not match), the checker accepts iff some
single associated university name is contained, case-insensitively, in
the text of at least 2 of the nodes that the Section Classifier marks in
scope; nodes the classifier rejects are excluded from the count by
construction. -/
theorem slow_path_iff_two_mentions (fetch : String → Option SecDoc) (item : Item)
    (doc : SecDoc)
    (hf : fetch (base_url ++ item.firstLink.href) = some doc)
    (hfast : fastPath doc = false) :
    check_college_town_status fetch item = .ok true ↔
      ∃ uni ∈ itemUniversities item,
        2 ≤ ((List.range doc.nodes.length).filter
            (fun i => relevant_section doc.nodes i &&
              strContains (strToLower (nodeText (doc.nodes.getD i DocNode.other))) uni)).length := by
  have hiff : slow_scan doc (itemUniversities item) = true ↔
      ∃ uni ∈ itemUniversities item, 2 ≤ countMentions doc.nodes uni := by
    unfold slow_scan
    rw [List.any_eq_true]
    constructor
    · rintro ⟨uni, hmem, huni⟩
      exact ⟨uni, hmem, of_decide_eq_true huni⟩
    · rintro ⟨uni, hmem, huni⟩
      exact ⟨uni, hmem, decide_eq_true huni⟩
  simp only [check_college_town_status, hf]
  rw [if_neg (show ¬fastPath doc = true by rw [hfast]; simp)]
  constructor
  · intro h
    obtain ⟨uni, hmem, hcnt⟩ := hiff.mp (Except.ok.inj h)
    refine ⟨uni, hmem, ?_⟩
    rw [← countMentions_eq_filter]
    exact hcnt
  · rintro ⟨uni, hmem, hcnt⟩
    rw [← countMentions_eq_filter] at hcnt
    exact congrArg Except.ok (hiff.mpr ⟨uni, hmem, hcnt⟩)

theorem slow_path_iff_two_mentions_witness :
    check_college_town_status (fun _ => some docHarv) itemHarv = .ok true :=
  (slow_path_iff_two_mentions (fun _ => some docHarv) itemHarv docHarv rfl rfl).mpr
    ⟨"harv", by decide, by decide⟩

/-- C5 counterexample: the claim that the extractor never mutates the
tree is false.  On a tree holding the single nested-neighborhood item
`itemWestwood` (under Los Angeles), the run rewrites the item's first
link text in place: the items after the run differ from the input. -/
theorem extractor_mutates_tree :
    get_towns_from_state (fun _ => none) [itemWestwood] =
      .ok (["Westwood, Los Angeles (UCLA)[7]\n"], [itemWestwoodAfter], []) ∧
    itemWestwoodAfter ≠ itemWestwood :=
  ⟨rfl, by decide⟩

/-- C5 amended: the extractor's only mutation is the neighborhood
rewrite.  If no processed item is a non-nested item sitting under a
big-city subheading, the tree after the run equals the tree before. -/
theorem extractor_preserves_tree_without_rewrite (fetch : String → Option SecDoc)
    (items : List Item) (ts : List String) (its cks : List Item)
    (hno : ∀ item ∈ items, item.hasNestedList = true ∨
      item.parentPrevPrevIsH3 = true ∨
      big_cities.contains item.enclosingCity = false)
    (h : get_towns_from_state fetch items = .ok (ts, its, cks)) :
    its = items := by
  revert hno h
  induction items generalizing ts its cks with
  | nil =>
    intro hno h
    have h' := Except.ok.inj h
    injection h' with h1 h23
    injection h23 with h2 h3
    exact h2.symm
  | cons item rest ih =>
    intro hno h
    have heq : get_towns_from_state fetch (item :: rest) =
        match processItem fetch item with
        | .error e => .error e
        | .ok (rcd, item2, chk) =>
          match get_towns_from_state fetch rest with
          | .error e => .error e
          | .ok (ts, its, cks) =>
            .ok ((match rcd with | some l => l :: ts | none => ts),
                 item2 :: its,
                 (if chk then item2 :: cks else cks)) := rfl
    rw [heq] at h
    cases hp : processItem fetch item with
    | error e => rw [hp] at h; exact absurd h (by simp)
    | ok trip =>
      obtain ⟨rcd, item2, chk⟩ := trip
      rw [hp] at h
      cases hr : get_towns_from_state fetch rest with
      | error e => rw [hr] at h; exact absurd h (by simp)
      | ok trip2 =>
        obtain ⟨ts', its', cks'⟩ := trip2
        rw [hr] at h
        have h' := Except.ok.inj h
        injection h' with h1 h23
        injection h23 with h2 h3
        have hitem : item2 = item :=
          processItem_preserves fetch item rcd item2 chk (hno item (by simp)) hp
        have hrest : its' = rest :=
          ih ts' its' cks' (fun it hit => hno it (by simp [hit])) hr
        rw [← h2, hitem, hrest]

theorem extractor_preserves_tree_without_rewrite_witness :
    ([itemAuburn] : List Item) = [itemAuburn] :=
  extractor_preserves_tree_without_rewrite (fun _ => none) [itemAuburn]
    ["Auburn (AU)[7]\n"] [itemAuburn] [] (by decide) rfl

/-- C7: the Section Classifier marks a node in scope exactly when it is a
paragraph or table and either no level-2 heading precedes it or the
nearest preceding level-2 heading's label contains "economy"
case-insensitively; every node of any other kind is never in scope. -/
theorem relevant_section_spec (nodes : List DocNode) (i : Nat) :
    relevant_section nodes i = true ↔
      ((∃ s, nodes.get? i = some (.para s) ∨ nodes.get? i = some (.table s)) ∧
       ((∀ j, j < i → ∀ lab, nodes.get? j ≠ some (.h2 lab)) ∨
        (∃ j lab, j < i ∧ nodes.get? j = some (.h2 lab) ∧
          (∀ k, j < k → k < i → ∀ lab2, nodes.get? k ≠ some (.h2 lab2)) ∧
          strContains (strToLower lab) "economy" = true))) := by
  have hok : relevant_heading_ok nodes i = true ↔
      ((∀ j, j < i → ∀ lab, nodes.get? j ≠ some (.h2 lab)) ∨
       (∃ j lab, j < i ∧ nodes.get? j = some (.h2 lab) ∧
         (∀ k, j < k → k < i → ∀ lab2, nodes.get? k ≠ some (.h2 lab2)) ∧
         strContains (strToLower lab) "economy" = true)) := by
    unfold relevant_heading_ok
    cases hp : find_previous_h2 nodes i with
    | none =>
      constructor
      · intro _
        exact Or.inl ((fp_none_iff nodes i).mp hp)
      · intro _
        rfl
    | some lab =>
      constructor
      · intro h
        obtain ⟨j, hj, hget, hbet⟩ := (fp_some_iff nodes lab i).mp hp
        exact Or.inr ⟨j, lab, hj, hget, hbet, h⟩
      · rintro (hB | ⟨j, lab2, hj, hget, hbet, hecon⟩)
        · rw [(fp_none_iff nodes i).mpr hB] at hp
          exact absurd hp (by simp)
        · have hp2 : find_previous_h2 nodes i = some lab2 :=
            (fp_some_iff nodes lab2 i).mpr ⟨j, hj, hget, hbet⟩
          rw [hp] at hp2
          have : lab = lab2 := Option.some.inj hp2
          rw [this]
          exact hecon
  unfold relevant_section
  cases hn : nodes.get? i with
  | none => simp
  | some node =>
    cases node with
    | h2 lab => simp
    | other => simp
    | para s =>
      rw [hok]
      constructor
      · intro h
        exact ⟨⟨s, Or.inl rfl⟩, h⟩
      · rintro ⟨-, hB⟩
        exact hB
    | table s =>
      rw [hok]
      constructor
      · intro h
        exact ⟨⟨s, Or.inr rfl⟩, h⟩
      · rintro ⟨-, hB⟩
        exact hB

/-- C9: a list item nested one level deeper than a direct `h3` state
section that the run accepts carries, when its enclosing city is in the
fixed big-city set, the resolved name `"<neighborhood>, <city>"` in both
the mutated link and the output record; when the city is not in the set
the item and its recorded name are left unmodified. -/
theorem neighborhood_rewrite (fetch : String → Option SecDoc) (item : Item)
    (r : String) (i2 : Item) (b : Bool)
    (hnest : item.parentPrevPrevIsH3 = false)
    (hproc : processItem fetch item = .ok (some r, i2, b)) :
    (big_cities.contains item.enclosingCity = true →
       i2.firstLink.text = item.firstLink.text ++ ", " ++ item.enclosingCity ∧
       r = item.firstLink.text ++ ", " ++ item.enclosingCity ++ item.restText ++ "\n") ∧
    (big_cities.contains item.enclosingCity = false →
       i2 = item ∧ r = item.firstLink.text ++ item.restText ++ "\n") := by
  rcases processItem_ok_shape fetch item (some r) i2 b hproc with
    ⟨-, hrcd, -⟩ | ⟨hn, hi2, hrcd⟩
  · exact absurd hrcd (by simp)
  · rcases hrcd with hrcd | hrcd
    · exact absurd hrcd (by simp)
    · have hr : r = itemText (rewriteItem item) ++ "\n" :=
        Option.some.inj hrcd
      constructor
      · intro hbig
        have hrw : rewriteItem item =
            { item with firstLink := { item.firstLink with
                text := item.firstLink.text ++ ", " ++ item.enclosingCity } } := by
          unfold rewriteItem
          rw [if_neg (show ¬item.parentPrevPrevIsH3 = true by rw [hnest]; simp),
            if_pos hbig]
        constructor
        · rw [hi2, hrw]
        · rw [hr, hrw]; rfl
      · intro hsmall
        have hrw : rewriteItem item = item := rewriteItem_id item (Or.inr hsmall)
        exact ⟨by rw [hi2, hrw], by rw [hr, hrw]; rfl⟩

theorem neighborhood_rewrite_witness :
    itemWestwoodAfter.firstLink.text =
      itemWestwood.firstLink.text ++ ", " ++ itemWestwood.enclosingCity ∧
    ("Westwood, Los Angeles (UCLA)[7]\n" : String) =
      itemWestwood.firstLink.text ++ ", " ++ itemWestwood.enclosingCity ++
        itemWestwood.restText ++ "\n" :=
  (neighborhood_rewrite (fun _ => none) itemWestwood
    "Westwood, Los Angeles (UCLA)[7]\n" itemWestwoodAfter false rfl rfl).1 rfl

/-- C10: the slow path counts each in-scope node at most once per
university: it tests containment, not occurrences.  A university whose
name occurs at least twice inside a single in-scope node — and in no
other in-scope node, so the number of in-scope nodes containing it is
1 — keeps a count of 1 and does not cause acceptance. -/
theorem single_node_two_mentions_insufficient (doc : SecDoc) (uni : String)
    (hone : (relevant_paras doc.nodes).countP
        (fun n => strContains (strToLower (nodeText n)) uni) = 1)
    (_hrep : ∃ n ∈ relevant_paras doc.nodes,
        2 ≤ occCount (strToLower (nodeText n)).toList uni.toList) :
    slow_scan doc [uni] = false ∧ countMentions doc.nodes uni = 1 := by
  have hcm : countMentions doc.nodes uni = 1 := hone
  refine ⟨?_, hcm⟩
  simp [slow_scan, hcm]

theorem single_node_two_mentions_insufficient_witness :
    slow_scan docSingle ["harv"] = false ∧
    countMentions docSingle.nodes "harv" = 1 :=
  single_node_two_mentions_insufficient docSingle "harv" (by decide)
    ⟨DocNode.para "harv harv", by decide, by decide⟩

end UTowns
